import Mathlib

/-!
Verification of the attendance-manager local-cache/sync layer
(`backend/local_cache.py`, `backend/app.py`) against its specification.

The local SQLite tables are modelled as Lean lists of row structures, in
insertion order; SQL operations become list transformations translated
statement-by-statement from the Python source.  The in-memory pending-sync
buffers, the persistent remote connection, and the remote-flush routine
`push_pending_to_neon` are modelled as explicit state passing.  Text
columns compared by SQL (ISO timestamps) stay `String`, compared with the
lexicographic order that SQLite uses for TEXT.
-/

/-- A team member as the JSON-shaped dict used by the API layer
(`member.get('firstName', '')` etc. in `local_cache.py`). -/
structure Member where
  firstName : String
  lastName : String
  ma : String
  gdud : String
  pluga : String
  mahlaka : String
  miktzoaTzvai : String
deriving DecidableEq, Repr

/-- A row of the local `team_members` table (schema in `init_local_cache`);
the AUTOINCREMENT id column is represented by list position. -/
structure TeamMemberRow where
  spreadsheet_id : String
  first_name : String
  last_name : String
  ma : String
  gdud : String
  pluga : String
  mahlaka : String
  miktzoa_tzvai : String
deriving DecidableEq, Repr

/-- Python `x or ''` on a string column value. -/
def orEmpty (s : String) : String := if s = "" then "" else s

/-- The INSERT into `team_members` performed by `save_team_members`. -/
def memberToRow (sid : String) (m : Member) : TeamMemberRow :=
  ⟨sid, m.firstName, m.lastName, m.ma, m.gdud, m.pluga, m.mahlaka, m.miktzoaTzvai⟩

/-- The dict built from a `team_members` row by `get_team_members`
(note the `row['miktzoa_tzvai'] or ''` coalesce in the source). -/
def rowToMember (r : TeamMemberRow) : Member :=
  ⟨r.first_name, r.last_name, r.ma, r.gdud, r.pluga, r.mahlaka, orEmpty r.miktzoa_tzvai⟩

/-- `save_team_members` (local part): DELETE all rows of the sheet, then
INSERT one row per submitted member, in order. -/
def save_team_members (tbl : List TeamMemberRow) (sid : String) (members : List Member) :
    List TeamMemberRow :=
  tbl.filter (fun r => r.spreadsheet_id ≠ sid) ++ members.map (memberToRow sid)

/-- `get_team_members`: SELECT the sheet's rows and convert each to a dict. -/
def get_team_members (tbl : List TeamMemberRow) (sid : String) : List Member :=
  (tbl.filter (fun r => r.spreadsheet_id = sid)).map rowToMember

theorem rowToMember_memberToRow (sid : String) (m : Member) :
    rowToMember (memberToRow sid m) = m := by
  cases m with
  | mk f l ma g p mh mi =>
    simp only [memberToRow, rowToMember, orEmpty]
    by_cases h : mi = "" <;> simp [h]

/-- C5: after `save_team_members`, the stored member set for the sheet is
exactly the submitted list. -/
theorem save_team_members_replaces (tbl : List TeamMemberRow) (sid : String)
    (members : List Member) :
    (save_team_members tbl sid members).filter (fun r => r.spreadsheet_id = sid)
      = members.map (memberToRow sid)
    ∧ get_team_members (save_team_members tbl sid members) sid = members := by
  have hfilter : (save_team_members tbl sid members).filter
      (fun r => r.spreadsheet_id = sid) = members.map (memberToRow sid) := by
    unfold save_team_members
    rw [List.filter_append]
    have h1 : (tbl.filter (fun r => r.spreadsheet_id ≠ sid)).filter
        (fun r => r.spreadsheet_id = sid) = [] := by
      apply List.filter_eq_nil_iff.mpr
      intro r hr
      have := List.of_mem_filter hr
      simp only [decide_eq_true_eq] at this ⊢
      simp [this]
    have h2 : (members.map (memberToRow sid)).filter
        (fun r => r.spreadsheet_id = sid) = members.map (memberToRow sid) := by
      apply List.filter_eq_self.mpr
      intro r hr
      rcases List.mem_map.mp hr with ⟨m, _, rfl⟩
      simp [memberToRow]
    rw [h1, h2, List.nil_append]
  refine ⟨hfilter, ?_⟩
  unfold get_team_members
  rw [hfilter, List.map_map]
  rw [show rowToMember ∘ memberToRow sid = id by
    funext m; simp [rowToMember_memberToRow]]
  exact List.map_id members

/-- A row of the local `attendance` table.  The schema constraint
UNIQUE(spreadsheet_id, ma, date) is stated as an invariant below, not
baked into the representation. -/
structure AttendanceRow where
  spreadsheet_id : String
  ma : String
  date : String
  status : String
  updated_at : String
  updated_by_session : String
deriving DecidableEq, Repr

/-- The conflict key of the `attendance` table. -/
def attKey (r : AttendanceRow) : String × String × String :=
  (r.spreadsheet_id, r.ma, r.date)

/-- The `INSERT ... ON CONFLICT(spreadsheet_id, ma, date) DO UPDATE SET
status, updated_at, updated_by_session` statement shared by
`update_attendance` and `update_attendance_batch`. -/
def upsertAttendance (tbl : List AttendanceRow) (sid ma date st ts sess : String) :
    List AttendanceRow :=
  if tbl.any (fun r => attKey r = (sid, ma, date)) then
    tbl.map (fun r => if attKey r = (sid, ma, date) then
      { r with status := st, updated_at := ts, updated_by_session := sess } else r)
  else
    tbl ++ [⟨sid, ma, date, st, ts, sess⟩]

/-- The UNIQUE(spreadsheet_id, ma, date) constraint: conflict keys are
pairwise distinct. -/
def AttKeysUnique (tbl : List AttendanceRow) : Prop :=
  (tbl.map attKey).Nodup

instance (tbl : List AttendanceRow) : Decidable (AttKeysUnique tbl) := by
  unfold AttKeysUnique; infer_instance

theorem filter_eq_singleton_of_nodup_map {α β : Type} [DecidableEq β]
    (f : α → β) (k : β) (l : List α) (h : (l.map f).Nodup)
    (ha : l.any (fun x => f x = k) = true) :
    ∃ a, f a = k ∧ l.filter (fun x => f x = k) = [a] := by
  induction l with
  | nil => simp at ha
  | cons x xs ih =>
    rw [List.map_cons, List.nodup_cons] at h
    by_cases hx : f x = k
    · refine ⟨x, hx, ?_⟩
      have hxs : xs.filter (fun y => f y = k) = [] := by
        apply List.filter_eq_nil_iff.mpr
        intro y hy
        simp only [decide_eq_true_eq]
        intro hk
        exact h.1 (hx ▸ hk ▸ List.mem_map_of_mem f hy)
      simp [List.filter_cons, hx, hxs]
    · have ha' : xs.any (fun y => f y = k) = true := by
        simp only [List.any_cons, Bool.or_eq_true, decide_eq_true_eq] at ha
        rcases ha with h1 | h1
        · exact absurd h1 hx
        · exact h1
      rcases ih h.2 ha' with ⟨a, hak, hfa⟩
      exact ⟨a, hak, by simp [List.filter_cons, hx, hfa]⟩

theorem attKey_update (sid ma date st ts sess : String) (r : AttendanceRow) :
    attKey (if attKey r = (sid, ma, date) then
      { r with status := st, updated_at := ts, updated_by_session := sess } else r)
      = attKey r := by
  by_cases h : attKey r = (sid, ma, date)
  · rw [if_pos h]; simp [attKey]
  · rw [if_neg h]

/-- One upsert leaves the key-uniqueness invariant intact and leaves the
table with exactly one row at the written key, carrying the written
status, timestamp and session. -/
theorem upsertAttendance_filter (tbl : List AttendanceRow)
    (h : AttKeysUnique tbl) (sid ma date st ts sess : String) :
    (upsertAttendance tbl sid ma date st ts sess).filter
        (fun r => attKey r = (sid, ma, date)) = [⟨sid, ma, date, st, ts, sess⟩]
    ∧ AttKeysUnique (upsertAttendance tbl sid ma date st ts sess) := by
  unfold upsertAttendance
  by_cases hany : tbl.any (fun r => attKey r = (sid, ma, date)) = true
  · simp only [hany, if_true]
    set g : AttendanceRow → AttendanceRow := fun r =>
      if attKey r = (sid, ma, date) then
        { r with status := st, updated_at := ts, updated_by_session := sess } else r
      with hg
    have hkey : ∀ r, attKey (g r) = attKey r := attKey_update sid ma date st ts sess
    have hmapkey : (tbl.map g).map attKey = tbl.map attKey := by
      rw [List.map_map]
      exact List.map_congr_left (fun r _ => hkey r)
    constructor
    · rcases filter_eq_singleton_of_nodup_map attKey (sid, ma, date) tbl h hany with
        ⟨a, hak, hfa⟩
      have : (tbl.map g).filter (fun r => attKey r = (sid, ma, date))
          = (tbl.filter (fun r => attKey r = (sid, ma, date))).map g := by
        rw [List.filter_map]
        congr 1
        apply List.filter_congr
        intro r _
        simp [Function.comp, hkey r]
      rw [this, hfa]
      cases a with
      | mk a1 a2 a3 a4 a5 a6 =>
        simp only [attKey, Prod.mk.injEq] at hak
        simp [hg, attKey, hak.1, hak.2.1, hak.2.2]
    · unfold AttKeysUnique
      rw [hmapkey]; exact h
  · simp only [hany, if_false, Bool.false_eq_true]
    constructor
    · rw [List.filter_append]
      have h1 : tbl.filter (fun r => attKey r = (sid, ma, date)) = [] := by
        apply List.filter_eq_nil_iff.mpr
        intro r hr
        simp only [decide_eq_true_eq]
        intro hk
        exact hany (List.any_eq_true.mpr ⟨r, hr, by simp [hk]⟩)
      rw [h1, List.nil_append]
      simp [List.filter_cons, attKey]
    · unfold AttKeysUnique
      rw [List.map_append, List.nodup_append]
      refine ⟨h, by simp, ?_⟩
      intro k hk
      simp only [List.map_cons, List.map_nil, List.mem_singleton]
      intro hk2
      subst hk2
      rcases List.mem_map.mp hk with ⟨r, hr, hrk⟩
      simp only [attKey] at hrk
      exact hany (List.any_eq_true.mpr ⟨r, hr, by simp [attKey, hrk]⟩)

theorem attKeysUnique_foldl (sid ma date : String)
    (calls : List (String × String × String)) :
    ∀ tbl, AttKeysUnique tbl →
      AttKeysUnique (calls.foldl
        (fun t c => upsertAttendance t sid ma date c.1 c.2.1 c.2.2) tbl) := by
  induction calls with
  | nil => intro tbl h; exact h
  | cons c rest ih =>
    intro tbl h
    rw [List.foldl_cons]
    exact ih _ (upsertAttendance_filter tbl h sid ma date c.1 c.2.1 c.2.2).2

/-- C4: any sequence of `update_attendance` writes at one
(sheet, ma, date) key, ending with the call `last = (status, ts, session)`,
leaves exactly one row at that key, and its status is the last call's
status.  Two identical calls in particular leave one record, not two. -/
theorem update_attendance_last_write_wins (tbl : List AttendanceRow)
    (h : AttKeysUnique tbl) (sid ma date : String)
    (calls : List (String × String × String)) (last : String × String × String) :
    ((calls ++ [last]).foldl
        (fun t c => upsertAttendance t sid ma date c.1 c.2.1 c.2.2) tbl).filter
        (fun r => attKey r = (sid, ma, date))
      = [⟨sid, ma, date, last.1, last.2.1, last.2.2⟩] := by
  rw [List.foldl_append, List.foldl_cons, List.foldl_nil]
  exact (upsertAttendance_filter _ (attKeysUnique_foldl sid ma date calls tbl h)
    sid ma date last.1 last.2.1 last.2.2).1

/-- C4 witness: two identical writes on an empty table leave exactly one
record. -/
theorem update_attendance_last_write_wins_witness :
    AttKeysUnique []
    ∧ (([("present", "t1", "s1")] ++ [("present", "t1", "s1")]).foldl
        (fun t c => upsertAttendance t "S" "100" "2025-12-22" c.1 c.2.1 c.2.2)
        []).filter (fun r => attKey r = ("S", "100", "2025-12-22"))
      = [⟨"S", "100", "2025-12-22", "present", "t1", "s1"⟩] :=
  ⟨by decide, update_attendance_last_write_wins [] (by decide) "S" "100"
    "2025-12-22" [("present", "t1", "s1")] ("present", "t1", "s1")⟩

/-- A change dict as built by `get_attendance_changes_since`. -/
structure AttendanceChange where
  ma : String
  date : String
  status : String
  updated_at : String
deriving DecidableEq, Repr

/-- The dict appended for each selected row. -/
def rowToChange (r : AttendanceRow) : AttendanceChange :=
  ⟨r.ma, r.date, r.status, r.updated_at⟩

/-- SQLite TEXT comparison: lexicographic order on the character
sequences (`String.lt` is exactly this order on `String.data`). -/
def sqlTextLt (a b : String) : Prop := a.data < b.data

instance (a b : String) : Decidable (sqlTextLt a b) := by
  unfold sqlTextLt; infer_instance

/-- `get_attendance_changes_since`: when `exclude_session_id` is truthy
(non-empty) the query filters on the session column; otherwise it selects
every row of the sheet newer than the timestamp, with no session filter.
TEXT comparison `updated_at > ?` is the lexicographic string order. -/
def get_attendance_changes_since (tbl : List AttendanceRow)
    (sid since excl : String) : List AttendanceChange :=
  if excl ≠ "" then
    (tbl.filter (fun r => r.spreadsheet_id = sid ∧ sqlTextLt since r.updated_at
      ∧ r.updated_by_session ≠ "" ∧ r.updated_by_session ≠ excl)).map rowToChange
  else
    (tbl.filter (fun r => r.spreadsheet_id = sid ∧ sqlTextLt since r.updated_at)).map
      rowToChange

/-- An attendance row with empty session attribution (legacy write). -/
def legacyRow : AttendanceRow :=
  ⟨"S", "100", "2025-12-22", "present", "2025-01-02T00:00:00", ""⟩

/-- C1 counterexample: with the empty-string exclude-session argument the
query takes the no-session-filter branch, so a record whose session
attribution is empty IS returned by the incremental feed. -/
theorem changes_since_empty_exclude_returns_unattributed :
    legacyRow.updated_by_session = ""
    ∧ get_attendance_changes_since [legacyRow] "S" "2025-01-01" ""
      = [⟨"100", "2025-12-22", "present", "2025-01-02T00:00:00"⟩] := by
  constructor
  · rfl
  · decide

/-- C1 amended: the non-empty-session and not-excluded filters apply
exactly when the exclude-session argument is non-empty; with an empty
exclude-session the feed returns every record of the sheet newer than the
timestamp, unattributed records included. -/
theorem get_attendance_changes_since_spec (tbl : List AttendanceRow)
    (sid since excl : String) :
    (excl ≠ "" → ∀ c, c ∈ get_attendance_changes_since tbl sid since excl ↔
      ∃ r ∈ tbl, r.spreadsheet_id = sid ∧ sqlTextLt since r.updated_at
        ∧ r.updated_by_session ≠ "" ∧ r.updated_by_session ≠ excl
        ∧ rowToChange r = c)
    ∧ (excl = "" → ∀ c, c ∈ get_attendance_changes_since tbl sid since excl ↔
      ∃ r ∈ tbl, r.spreadsheet_id = sid ∧ sqlTextLt since r.updated_at
        ∧ rowToChange r = c) := by
  constructor
  · intro hx c
    unfold get_attendance_changes_since
    rw [if_pos hx]
    simp only [List.mem_map, List.mem_filter, decide_eq_true_eq]
    constructor
    · rintro ⟨r, ⟨hr, h1, h2, h3, h4⟩, h5⟩
      exact ⟨r, hr, h1, h2, h3, h4, h5⟩
    · rintro ⟨r, hr, h1, h2, h3, h4, h5⟩
      exact ⟨r, ⟨hr, h1, h2, h3, h4⟩, h5⟩
  · intro hx c
    unfold get_attendance_changes_since
    rw [hx, if_neg (by simp)]
    simp only [List.mem_map, List.mem_filter, decide_eq_true_eq]
    constructor
    · rintro ⟨r, ⟨hr, h1, h2⟩, h3⟩
      exact ⟨r, hr, h1, h2, h3⟩
    · rintro ⟨r, hr, h1, h2, h3⟩
      exact ⟨r, ⟨hr, h1, h2⟩, h3⟩

/-- C1 amended witness: one attributed record from another session is
returned under a non-empty exclude-session, and the legacy record is
returned under the empty exclude-session. -/
theorem get_attendance_changes_since_spec_witness :
    (⟨"100", "2025-12-22", "present", "2025-01-02T00:00:00"⟩ : AttendanceChange)
      ∈ get_attendance_changes_since
        [⟨"S", "100", "2025-12-22", "present", "2025-01-02T00:00:00", "sB"⟩]
        "S" "2025-01-01" "sA"
    ∧ (⟨"100", "2025-12-22", "present", "2025-01-02T00:00:00"⟩ : AttendanceChange)
      ∈ get_attendance_changes_since [legacyRow] "S" "2025-01-01" "" :=
  ⟨((get_attendance_changes_since_spec
      [⟨"S", "100", "2025-12-22", "present", "2025-01-02T00:00:00", "sB"⟩]
      "S" "2025-01-01" "sA").1 (by decide) _).mpr
    ⟨⟨"S", "100", "2025-12-22", "present", "2025-01-02T00:00:00", "sB"⟩,
      by simp, rfl, by decide, by decide, by decide, rfl⟩,
   ((get_attendance_changes_since_spec [legacyRow]
      "S" "2025-01-01" "").2 rfl _).mpr
    ⟨legacyRow, by simp, rfl, by decide, rfl⟩⟩

/-- A row of the local `active_users` table; `last_seen` is the wall
clock in seconds (`time.time()`, REAL in the schema), modelled as an
integer count of seconds. -/
structure ActiveUserRow where
  session_id : String
  email : String
  spreadsheet_id : String
  last_seen : Int
deriving DecidableEq, Repr

def ACTIVE_USER_TIMEOUT_SECONDS : Int := 30

/-- `cleanup_inactive_users`: DELETE rows with
`last_seen < now - ACTIVE_USER_TIMEOUT_SECONDS`. -/
def cleanup_inactive_users (tbl : List ActiveUserRow) (now : Int) :
    List ActiveUserRow :=
  tbl.filter (fun u => ¬ u.last_seen < now - ACTIVE_USER_TIMEOUT_SECONDS)

/-- `update_active_user`: INSERT ... ON CONFLICT(session_id) DO UPDATE. -/
def update_active_user (tbl : List ActiveUserRow)
    (session_id email sid : String) (last_seen : Int) : List ActiveUserRow :=
  if tbl.any (fun u => u.session_id = session_id) then
    tbl.map (fun u => if u.session_id = session_id then
      ⟨u.session_id, email, sid, last_seen⟩ else u)
  else
    tbl ++ [⟨session_id, email, sid, last_seen⟩]

/-- `get_active_users_for_sheet`: first purge expired rows (a persistent
write), then SELECT the emails of the sheet's sessions, excluding
`exclude_session` when it is truthy (non-empty; the Python default is
None).  Returns the updated table and the email list — one entry per
matching row, no DISTINCT. -/
def get_active_users_for_sheet (tbl : List ActiveUserRow) (sid : String)
    (exclude_session : String) (now : Int) :
    List ActiveUserRow × List String :=
  let tbl2 := cleanup_inactive_users tbl now
  if exclude_session ≠ "" then
    (tbl2, (tbl2.filter (fun u => u.spreadsheet_id = sid
      ∧ u.session_id ≠ exclude_session)).map (fun u => u.email))
  else
    (tbl2, (tbl2.filter (fun u => u.spreadsheet_id = sid)).map
      (fun u => u.email))

/-- C9 counterexample: two live sessions sharing one display string make
that string appear twice — the presence query does not de-duplicate. -/
theorem get_active_users_for_sheet_duplicates :
    (get_active_users_for_sheet
      [⟨"s1", "a@b", "S", 100⟩, ⟨"s2", "a@b", "S", 100⟩] "S" "s3" 100).2
      = ["a@b", "a@b"]
    ∧ ¬ (get_active_users_for_sheet
      [⟨"s1", "a@b", "S", 100⟩, ⟨"s2", "a@b", "S", 100⟩] "S" "s3" 100).2.Nodup := by
  decide

/-- C9 amended: with a non-empty excluded session, the returned list has
one entry per remaining session of the sheet other than the excluded one —
rows whose last-seen is more than 30 seconds old are purged first and
never contribute, the excluded session never contributes, but equal
display strings of distinct sessions are NOT de-duplicated. -/
theorem get_active_users_for_sheet_spec (tbl : List ActiveUserRow)
    (sid excl : String) (now : Int) (hx : excl ≠ "") :
    (get_active_users_for_sheet tbl sid excl now).2
      = ((cleanup_inactive_users tbl now).filter
          (fun u => u.spreadsheet_id = sid ∧ u.session_id ≠ excl)).map
          (fun u => u.email)
    ∧ ∀ e, e ∈ (get_active_users_for_sheet tbl sid excl now).2 ↔
        ∃ u ∈ tbl, ¬ u.last_seen < now - ACTIVE_USER_TIMEOUT_SECONDS
          ∧ u.spreadsheet_id = sid ∧ u.session_id ≠ excl ∧ u.email = e := by
  constructor
  · unfold get_active_users_for_sheet
    rw [if_pos hx]
  · intro e
    unfold get_active_users_for_sheet
    rw [if_pos hx]
    simp only [List.mem_map, List.mem_filter, cleanup_inactive_users,
      decide_eq_true_eq]
    constructor
    · rintro ⟨u, ⟨⟨hu, h1⟩, h2, h3⟩, h4⟩
      exact ⟨u, hu, h1, h2, h3, h4⟩
    · rintro ⟨u, hu, h1, h2, h3, h4⟩
      exact ⟨u, ⟨⟨hu, h1⟩, h2, h3⟩, h4⟩

/-- C9 amended witness: an expired row and the excluded session do not
contribute; the one live other session does. -/
theorem get_active_users_for_sheet_spec_witness :
    (get_active_users_for_sheet
      [⟨"s0", "old@b", "S", 10⟩, ⟨"s3", "me@b", "S", 100⟩,
       ⟨"s1", "x@y", "S", 95⟩] "S" "s3" 100).2 = ["x@y"]
    ∧ ("x@y" ∈ (get_active_users_for_sheet
      [⟨"s0", "old@b", "S", 10⟩, ⟨"s3", "me@b", "S", 100⟩,
       ⟨"s1", "x@y", "S", 95⟩] "S" "s3" 100).2) :=
  ⟨by
    rw [(get_active_users_for_sheet_spec
      [⟨"s0", "old@b", "S", 10⟩, ⟨"s3", "me@b", "S", 100⟩,
       ⟨"s1", "x@y", "S", 95⟩] "S" "s3" 100 (by decide)).1]
    decide,
   ((get_active_users_for_sheet_spec
      [⟨"s0", "old@b", "S", 10⟩, ⟨"s3", "me@b", "S", 100⟩,
       ⟨"s1", "x@y", "S", 95⟩] "S" "s3" 100 (by decide)).2 "x@y").mpr
    ⟨⟨"s1", "x@y", "S", 95⟩, by simp, by decide, rfl, by decide, rfl⟩⟩

/-- A row of the local `sheets` table (defaults from the schema in
`init_local_cache`). -/
structure SheetRow where
  spreadsheet_id : String
  spreadsheet_title : String
  sheet_name : String
  gdud : String
  pluga : String
  start_date : String
  end_date : String
  created_at : String
  updated_at : String
deriving DecidableEq, Repr

/-- The whole local SQLite cache: the `data_version` singleton row and the
four entity tables. -/
structure LocalStore where
  version : Nat
  sheets : List SheetRow
  team_members : List TeamMemberRow
  attendance : List AttendanceRow
  active_users : List ActiveUserRow
deriving DecidableEq, Repr

/-- `init_local_cache` on a fresh database: empty tables and
`INSERT OR IGNORE INTO data_version (id, version) VALUES (1, 1)`. -/
def init_local_cache : LocalStore := ⟨1, [], [], [], []⟩

/-- `get_data_version` reads the singleton version row. -/
def get_data_version (s : LocalStore) : Nat := s.version

/-- `increment_data_version` (local part): `version = version + 1`, then
select and return the new value. -/
def increment_data_version (s : LocalStore) : LocalStore × Nat :=
  ({ s with version := s.version + 1 }, s.version + 1)

/-- `get_full_sheet_data`: the sheet row (None short-circuits), the member
dicts, and the attendance rows of the sheet as (ma, date, status) triples
(the nested Python dict is determined by this row list). -/
def get_full_sheet_data (s : LocalStore) (sid : String) :
    Option (SheetRow × List Member × List (String × String × String)) :=
  match s.sheets.find? (fun r => r.spreadsheet_id = sid) with
  | none => none
  | some sheet => some (sheet,
      (s.team_members.filter (fun r => r.spreadsheet_id = sid)).map rowToMember,
      (s.attendance.filter (fun r => r.spreadsheet_id = sid)).map
        (fun r => (r.ma, r.date, r.status)))

/-- The heartbeat request body; absent JSON fields take the `req.get`
defaults of the route (`email` 'Anonymous', `sessionId` 'unknown',
`lastSync` '', `dataVersion` 0). -/
structure HeartbeatRequest where
  email : String
  sessionId : String
  lastSync : String
  dataVersion : Nat
deriving DecidableEq, Repr

/-- The three shapes of heartbeat response payload. -/
inductive HeartbeatResponse where
  | notFound
  | full (reason : String) (sheet : SheetRow) (members : List Member)
      (attendanceData : List (String × String × String))
      (serverTimestamp : String) (dataVersion : Nat)
      (activeUsers : List String)
  | incremental (changes : List AttendanceChange) (serverTimestamp : String)
      (dataVersion : Nat) (activeUsers : List String)
deriving DecidableEq, Repr

/-- The presence side effects at the start of `heartbeat`: upsert the
caller's presence row, then run the (lazily purging) presence query
excluding the caller's session.  Returns the updated store and the other
users list. -/
def heartbeatPresence (s : LocalStore) (sid : String)
    (req : HeartbeatRequest) (now : Int) : LocalStore × List String :=
  let au1 := update_active_user s.active_users req.sessionId req.email sid now
  let p := get_active_users_for_sheet au1 sid req.sessionId now
  ({ s with active_users := p.1 }, p.2)

/-- The `/api/sheets/<sid>/heartbeat` route body: presence update, then
the data-version fence (only for a truthy client version), then the
incremental branch (only for a truthy lastSync), else a full bundle. -/
def heartbeat (s : LocalStore) (sid : String) (req : HeartbeatRequest)
    (now : Int) (nowTs : String) : LocalStore × HeartbeatResponse :=
  let q := heartbeatPresence s sid req now
  let s2 := q.1
  let other_users := q.2
  let current_data_version := get_data_version s2
  if req.dataVersion ≠ 0 ∧ req.dataVersion ≠ current_data_version then
    match get_full_sheet_data s2 sid with
    | none => (s2, HeartbeatResponse.notFound)
    | some (sheet, members, att) =>
        (s2, HeartbeatResponse.full "data_version_changed" sheet members att
          nowTs current_data_version other_users)
  else if req.lastSync ≠ "" then
    (s2, HeartbeatResponse.incremental
      (get_attendance_changes_since s2.attendance sid req.lastSync req.sessionId)
      nowTs current_data_version other_users)
  else
    match get_full_sheet_data s2 sid with
    | none => (s2, HeartbeatResponse.notFound)
    | some (sheet, members, att) =>
        (s2, HeartbeatResponse.full "" sheet members att nowTs
          current_data_version other_users)

/-- C6: a heartbeat carrying a truthy remembered version V that differs
from the stored version W answers with the full sheet bundle (sheet,
member list, attendance map) and W — not an incremental change list —
even when the request carries a lastSync timestamp.  (A genuinely
remembered version is never 0: stored versions start at 1 and only
grow.) -/
theorem heartbeat_version_fence (s : LocalStore) (sid : String)
    (req : HeartbeatRequest) (now : Int) (nowTs : String)
    (h0 : req.dataVersion ≠ 0) (hW : req.dataVersion ≠ s.version)
    (sheet : SheetRow) (members : List Member)
    (att : List (String × String × String))
    (hfull : get_full_sheet_data s sid = some (sheet, members, att)) :
    (heartbeat s sid req now nowTs).2
      = HeartbeatResponse.full "data_version_changed" sheet members att nowTs
          s.version (heartbeatPresence s sid req now).2 := by
  have hc : req.dataVersion ≠ 0 ∧
      req.dataVersion ≠ get_data_version (heartbeatPresence s sid req now).1 :=
    ⟨h0, hW⟩
  have hf2 : get_full_sheet_data (heartbeatPresence s sid req now).1 sid
      = some (sheet, members, att) := hfull
  unfold heartbeat
  simp only [if_pos hc, hf2]
  rfl

/-- The sample sheet row used by the heartbeat witnesses. -/
def sampleSheet : SheetRow :=
  ⟨"S", "T", "N", "", "", "2025-12-21", "2026-02-01", "c", "u"⟩

/-- A store at version 3 holding one sheet and nothing else. -/
def sampleStore : LocalStore := ⟨3, [sampleSheet], [], [], []⟩

/-- C6 witness: stale remembered version 2 against stored version 3, with
a lastSync present, still yields the full bundle and version 3. -/
theorem heartbeat_version_fence_witness :
    (heartbeat sampleStore "S" ⟨"a@b", "sA", "2025-01-01", 2⟩ 100 "ts").2
      = HeartbeatResponse.full "data_version_changed" sampleSheet [] [] "ts"
          3 [] := by
  rw [heartbeat_version_fence sampleStore "S" ⟨"a@b", "sA", "2025-01-01", 2⟩
    100 "ts" (by decide) (by decide) sampleSheet [] [] (by rfl)]
  decide

/-- C10: a heartbeat whose dataVersion field is absent or 0 never takes
the version fence (whatever the stored version), and with a non-empty
lastSync it receives the incremental change list. -/
theorem heartbeat_zero_version_incremental (s : LocalStore) (sid : String)
    (req : HeartbeatRequest) (now : Int) (nowTs : String)
    (h0 : req.dataVersion = 0) (hls : req.lastSync ≠ "") :
    (heartbeat s sid req now nowTs).2
      = HeartbeatResponse.incremental
          (get_attendance_changes_since s.attendance sid req.lastSync
            req.sessionId)
          nowTs s.version (heartbeatPresence s sid req now).2 := by
  have hc : ¬ (req.dataVersion ≠ 0 ∧
      req.dataVersion ≠ get_data_version (heartbeatPresence s sid req now).1) := by
    rw [h0]; simp
  unfold heartbeat
  simp only [if_neg hc, if_pos hls]
  rfl

/-- C10 witness: stored version 3, request version 0, lastSync set:
the response is incremental even though 0 differs from 3. -/
theorem heartbeat_zero_version_incremental_witness :
    (heartbeat sampleStore "S" ⟨"a@b", "sA", "2025-01-01", 0⟩ 100 "ts").2
      = HeartbeatResponse.incremental [] "ts" 3 [] := by
  rw [heartbeat_zero_version_incremental sampleStore "S"
    ⟨"a@b", "sA", "2025-01-01", 0⟩ 100 "ts" rfl (by decide)]
  decide

/-- A `_pending_sheets` tuple: (spreadsheet_id, spreadsheet_title,
sheet_name, gdud, pluga). -/
structure SheetTuple where
  spreadsheet_id : String
  spreadsheet_title : String
  sheet_name : String
  gdud : String
  pluga : String
deriving DecidableEq, Repr

/-- The three lock-protected pending-sync buffers.  `_pending_attendance`
tuples carry the same six components as an attendance row;
`_pending_team_members` is a dict, modelled as its (insertion-ordered)
entry list with unique keys. -/
structure Pending where
  attendance : List AttendanceRow
  sheets : List SheetTuple
  team_members : List (String × List Member)
deriving DecidableEq, Repr

/-- `get_pending_sync_count`: attendance items + sheet items + the summed
lengths of the queued member lists. -/
def get_pending_sync_count (p : Pending) : Nat :=
  p.attendance.length + p.sheets.length
    + (p.team_members.map (fun q => q.2.length)).sum

/-- The dict assignment `_pending_team_members[spreadsheet_id] = members`:
replace the entry in place if the key is present, else append it. -/
def setPendingTeamMembers (d : List (String × List Member)) (sid : String)
    (ms : List Member) : List (String × List Member) :=
  if d.any (fun q => q.1 = sid) then
    d.map (fun q => if q.1 = sid then (sid, ms) else q)
  else
    d ++ [(sid, ms)]

/-- One dict assignment keeps keys unique, stores exactly the assigned
list under the key, and leaves every other key's entries untouched. -/
theorem setPendingTeamMembers_filter (d : List (String × List Member))
    (hnd : (d.map Prod.fst).Nodup) (sid : String) (ms : List Member) :
    (setPendingTeamMembers d sid ms).filter (fun q => q.1 = sid) = [(sid, ms)]
    ∧ ((setPendingTeamMembers d sid ms).map Prod.fst).Nodup
    ∧ ∀ sid2, sid2 ≠ sid →
      (setPendingTeamMembers d sid ms).filter (fun q => q.1 = sid2)
        = d.filter (fun q => q.1 = sid2) := by
  unfold setPendingTeamMembers
  by_cases hany : d.any (fun q => q.1 = sid) = true
  · simp only [hany, if_true]
    set g : String × List Member → String × List Member := fun q =>
      if q.1 = sid then (sid, ms) else q
      with hg
    have hkey : ∀ q : String × List Member, (g q).1 = q.1 := by
      intro q
      by_cases h : q.1 = sid
      · rw [hg]; simp [h]
      · rw [hg]; simp [h]
    have hmapkey : (d.map g).map Prod.fst = d.map Prod.fst := by
      rw [List.map_map]
      exact List.map_congr_left (fun q _ => hkey q)
    have hfilter : ∀ k : String, (d.map g).filter (fun q => q.1 = k)
        = (d.filter (fun q => q.1 = k)).map g := by
      intro k
      rw [List.filter_map]
      congr 1
      apply List.filter_congr
      intro q _
      simp [Function.comp, hkey q]
    refine ⟨?_, ?_, ?_⟩
    · rcases filter_eq_singleton_of_nodup_map Prod.fst sid d hnd hany with
        ⟨a, hak, hfa⟩
      rw [hfilter sid, hfa]
      simp [hg, hak]
    · rw [hmapkey]; exact hnd
    · intro sid2 hne
      rw [hfilter sid2]
      have : ∀ q ∈ d.filter (fun q : String × List Member => q.1 = sid2),
          g q = q := by
        intro q hq
        have := List.of_mem_filter hq
        simp only [decide_eq_true_eq] at this
        rw [hg]
        simp [this, hne]
      calc (d.filter (fun q : String × List Member => q.1 = sid2)).map g
          = (d.filter (fun q : String × List Member => q.1 = sid2)).map id :=
            List.map_congr_left (fun q hq => this q hq)
        _ = d.filter (fun q : String × List Member => q.1 = sid2) :=
            List.map_id _
  · simp only [hany, if_false, Bool.false_eq_true]
    have h1 : d.filter (fun q : String × List Member => q.1 = sid) = [] := by
      apply List.filter_eq_nil_iff.mpr
      intro q hq
      simp only [decide_eq_true_eq]
      intro hk
      exact hany (List.any_eq_true.mpr ⟨q, hq, by simp [hk]⟩)
    refine ⟨?_, ?_, ?_⟩
    · rw [List.filter_append, h1, List.nil_append]
      simp [List.filter_cons]
    · rw [List.map_append, List.nodup_append]
      refine ⟨hnd, by simp, ?_⟩
      intro k hk
      simp only [List.map_cons, List.map_nil, List.mem_singleton]
      intro hk2
      subst hk2
      rcases List.mem_map.mp hk with ⟨q, hq, hqk⟩
      exact hany (List.any_eq_true.mpr ⟨q, hq, by simp [hqk]⟩)
    · intro sid2 hne
      rw [List.filter_append]
      have h2 : List.filter (fun q : String × List Member => q.1 = sid2)
          [(sid, ms)] = [] := by
        simp [List.filter_cons, hne.symm]
      rw [h2, List.append_nil]

/-- C8: a second `save_team_members` for the same sheet before a flush
replaces the queued list for that sheet (the buffer holds exactly the
second list), while queued lists for other sheets are unaffected. -/
theorem setPendingTeamMembers_last_write_wins
    (d : List (String × List Member)) (hnd : (d.map Prod.fst).Nodup)
    (sid : String) (ms1 ms2 : List Member) :
    (setPendingTeamMembers (setPendingTeamMembers d sid ms1) sid ms2).filter
        (fun q => q.1 = sid) = [(sid, ms2)]
    ∧ ∀ sid2, sid2 ≠ sid →
      (setPendingTeamMembers (setPendingTeamMembers d sid ms1) sid ms2).filter
          (fun q => q.1 = sid2)
        = d.filter (fun q => q.1 = sid2) := by
  rcases setPendingTeamMembers_filter d hnd sid ms1 with ⟨_, hnd1, hframe1⟩
  rcases setPendingTeamMembers_filter (setPendingTeamMembers d sid ms1) hnd1
    sid ms2 with ⟨hf2, _, hframe2⟩
  refine ⟨hf2, ?_⟩
  intro sid2 hne
  rw [hframe2 sid2 hne, hframe1 sid2 hne]

/-- Sample members for the pending-buffer witnesses. -/
def memberA : Member := ⟨"Dana", "Levi", "100", "", "", "", ""⟩

def memberB : Member := ⟨"Noa", "Cohen", "101", "", "", "", ""⟩

/-- C8 witness: queue [A,B] then [A] for sheet S while sheet S2 has a
queued list; S holds exactly [A], S2 is untouched. -/
theorem setPendingTeamMembers_last_write_wins_witness :
    (setPendingTeamMembers (setPendingTeamMembers [("S2", [memberB])] "S"
        [memberA, memberB]) "S" [memberA]).filter (fun q => q.1 = "S")
      = [("S", [memberA])]
    ∧ (setPendingTeamMembers (setPendingTeamMembers [("S2", [memberB])] "S"
        [memberA, memberB]) "S" [memberA]).filter (fun q => q.1 = "S2")
      = [("S2", [memberB])] :=
  ⟨(setPendingTeamMembers_last_write_wins [("S2", [memberB])] (by decide)
      "S" [memberA, memberB] [memberA]).1,
   by
    rw [(setPendingTeamMembers_last_write_wins [("S2", [memberB])] (by decide)
      "S" [memberA, memberB] [memberA]).2 "S2" (by decide)]
    decide⟩

/-- The sync thread's shared state: the pending buffers and whether the
persistent remote connection `_neon_sync_conn` is currently held open. -/
structure SyncState where
  pending : Pending
  neonConn : Bool
deriving DecidableEq, Repr

/-- Whether the drained batch is empty (`if not pending_attendance and not
pending_sheets and not pending_team_members: return`). -/
def Pending.isEmptyBatch (p : Pending) : Prop :=
  p.attendance = [] ∧ p.sheets = [] ∧ p.team_members = []

instance (p : Pending) : Decidable p.isEmptyBatch := by
  unfold Pending.isEmptyBatch; infer_instance

/-- Whether the remote application raised an exception. -/
inductive FlushResult where
  | success
  | failure
deriving DecidableEq, Repr

/-- The failure handler's re-enqueue of the drained batch, given the items
enqueued while the flush was running: attendance and sheet tuples are
prepended; each drained team-member entry is written back only if its
sheet has no newer queued entry (`if sid not in _pending_team_members`). -/
def requeueDrained (drained during : Pending) : Pending :=
  { attendance := drained.attendance ++ during.attendance,
    sheets := drained.sheets ++ during.sheets,
    team_members := drained.team_members.foldl
      (fun acc q => if acc.any (fun p => p.1 = q.1) then acc else acc ++ [q])
      during.team_members }

/-- One call of `push_pending_to_neon`, as a transition on the sync state:
`during` is whatever the request path enqueued between the drain and the
end of the call, `res` tells whether the remote application raised.  An
empty drained batch returns before touching the connection; a successful
flush keeps the (possibly freshly opened) connection; a failure closes
and drops it and re-enqueues the drained batch. -/
def push_pending_to_neon (s : SyncState) (during : Pending)
    (res : FlushResult) : SyncState :=
  let drained := s.pending
  if drained.isEmptyBatch then
    { pending := during, neonConn := s.neonConn }
  else
    match res with
    | FlushResult.success => { pending := during, neonConn := true }
    | FlushResult.failure =>
        { pending := requeueDrained drained during, neonConn := false }

/-- C2 counterexample: drained batch holds the two-member list [A,B] for
sheet S; a fresh save of [A] for S arrives during the failed flush.  The
drained list is dropped (the newer one wins), so the pending count after
the failure (1) is below the drained count (2) and the drained item is
gone. -/
theorem push_failure_drops_drained_team_list :
    get_pending_sync_count (⟨[], [], [("S", [memberA, memberB])]⟩ : Pending) = 2
    ∧ get_pending_sync_count (push_pending_to_neon
        ⟨⟨[], [], [("S", [memberA, memberB])]⟩, true⟩
        ⟨[], [], [("S", [memberA])]⟩ FlushResult.failure).pending = 1
    ∧ ("S", [memberA, memberB]) ∉ (push_pending_to_neon
        ⟨⟨[], [], [("S", [memberA, memberB])]⟩, true⟩
        ⟨[], [], [("S", [memberA])]⟩ FlushResult.failure).pending.team_members := by
  refine ⟨rfl, rfl, ?_⟩
  decide

theorem requeueDrained_team_members (during : List (String × List Member)) :
    ∀ (drained kept : List (String × List Member)),
      (drained.map Prod.fst).Nodup →
      (∀ q ∈ drained, kept.any (fun p => p.1 = q.1) = false) →
      drained.foldl
        (fun acc q => if acc.any (fun p => p.1 = q.1) then acc else acc ++ [q])
        (during ++ kept)
      = during ++ kept
        ++ drained.filter (fun q => ¬ during.any (fun p => p.1 = q.1)) := by
  intro drained
  induction drained with
  | nil => intro kept _ _; simp
  | cons q rest ih =>
    intro kept hnd hkept
    rw [List.map_cons, List.nodup_cons] at hnd
    rw [List.foldl_cons]
    have hsplit : (during ++ kept).any (fun p => p.1 = q.1)
        = (during.any (fun p => p.1 = q.1) || kept.any (fun p => p.1 = q.1)) :=
      List.any_append
    have hkq : kept.any (fun p => p.1 = q.1) = false :=
      hkept q (List.mem_cons_self q rest)
    by_cases hd : during.any (fun p => p.1 = q.1) = true
    · rw [if_pos (by rw [hsplit, hd, hkq]; rfl)]
      rw [ih kept hnd.2 (fun q2 hq2 => hkept q2 (List.mem_cons_of_mem q hq2))]
      have : List.filter (fun q2 => decide ¬ during.any (fun p => p.1 = q2.1) = true)
          (q :: rest) = rest.filter (fun q2 => ¬ during.any (fun p => p.1 = q2.1)) := by
        rw [List.filter_cons]
        simp [hd]
      rw [List.filter_cons]
      simp [hd]
    · have hd' : during.any (fun p => p.1 = q.1) = false := by
        cases h : during.any (fun p => p.1 = q.1)
        · rfl
        · exact absurd h hd
      rw [if_neg (by rw [hsplit, hd', hkq]; simp)]
      have hkept' : ∀ q2 ∈ rest, (kept ++ [q]).any (fun p => p.1 = q2.1) = false := by
        intro q2 hq2
        rw [List.any_append]
        rw [hkept q2 (List.mem_cons_of_mem q hq2)]
        simp only [List.any_cons, List.any_nil, Bool.or_false, Bool.false_or]
        by_contra hcontra
        rw [Bool.not_eq_false, decide_eq_true_eq] at hcontra
        exact hnd.1 (hcontra ▸ List.mem_map_of_mem Prod.fst hq2)
      have h2 := ih (kept ++ [q]) hnd.2 hkept'
      rw [← List.append_assoc during kept [q]] at h2
      rw [h2, List.filter_cons]
      simp [hd', List.append_assoc]

/-- C2 amended: a failed flush invalidates the held connection and
re-enqueues the drained attendance and sheet tuples losslessly, prepended
ahead of the items enqueued during the flush; a drained team-member list
is re-enqueued only when its sheet has no newer list queued meanwhile —
when it does, the newer list wins and the drained one is dropped. -/
theorem push_failure_requeues (s : SyncState) (during : Pending)
    (hne : ¬ s.pending.isEmptyBatch)
    (hnd : (s.pending.team_members.map Prod.fst).Nodup) :
    (push_pending_to_neon s during FlushResult.failure).neonConn = false
    ∧ (push_pending_to_neon s during FlushResult.failure).pending.attendance
        = s.pending.attendance ++ during.attendance
    ∧ (push_pending_to_neon s during FlushResult.failure).pending.sheets
        = s.pending.sheets ++ during.sheets
    ∧ (push_pending_to_neon s during FlushResult.failure).pending.team_members
        = during.team_members
          ++ s.pending.team_members.filter
              (fun q => ¬ during.team_members.any (fun p => p.1 = q.1)) := by
  have hpush : push_pending_to_neon s during FlushResult.failure
      = { pending := requeueDrained s.pending during, neonConn := false } := by
    unfold push_pending_to_neon
    rw [if_neg hne]
  rw [hpush]
  refine ⟨rfl, rfl, rfl, ?_⟩
  show (requeueDrained s.pending during).team_members = _
  unfold requeueDrained
  have h := requeueDrained_team_members during.team_members
    s.pending.team_members [] hnd (fun q _ => rfl)
  rw [List.append_nil] at h
  exact h

/-- C2 amended witness: one attendance tuple and one sheet tuple are
prepended; the drained list for sheet S is dropped in favour of the newer
queued list, the drained list for sheet S2 survives. -/
theorem push_failure_requeues_witness :
    (push_pending_to_neon
        ⟨⟨[⟨"S", "100", "d1", "present", "t1", "s1"⟩],
          [⟨"S", "T", "N", "", ""⟩],
          [("S", [memberA]), ("S2", [memberB])]⟩, true⟩
        ⟨[⟨"S", "100", "d2", "absent", "t2", "s2"⟩], [],
          [("S", [memberB])]⟩ FlushResult.failure).neonConn = false
    ∧ (push_pending_to_neon
        ⟨⟨[⟨"S", "100", "d1", "present", "t1", "s1"⟩],
          [⟨"S", "T", "N", "", ""⟩],
          [("S", [memberA]), ("S2", [memberB])]⟩, true⟩
        ⟨[⟨"S", "100", "d2", "absent", "t2", "s2"⟩], [],
          [("S", [memberB])]⟩ FlushResult.failure).pending.attendance
      = [⟨"S", "100", "d1", "present", "t1", "s1"⟩]
        ++ [⟨"S", "100", "d2", "absent", "t2", "s2"⟩]
    ∧ (push_pending_to_neon
        ⟨⟨[⟨"S", "100", "d1", "present", "t1", "s1"⟩],
          [⟨"S", "T", "N", "", ""⟩],
          [("S", [memberA]), ("S2", [memberB])]⟩, true⟩
        ⟨[⟨"S", "100", "d2", "absent", "t2", "s2"⟩], [],
          [("S", [memberB])]⟩ FlushResult.failure).pending.sheets
      = [⟨"S", "T", "N", "", ""⟩] ++ []
    ∧ (push_pending_to_neon
        ⟨⟨[⟨"S", "100", "d1", "present", "t1", "s1"⟩],
          [⟨"S", "T", "N", "", ""⟩],
          [("S", [memberA]), ("S2", [memberB])]⟩, true⟩
        ⟨[⟨"S", "100", "d2", "absent", "t2", "s2"⟩], [],
          [("S", [memberB])]⟩ FlushResult.failure).pending.team_members
      = [("S", [memberB])]
        ++ ([("S", [memberA]), ("S2", [memberB])].filter
            (fun q => ¬ [("S", [memberB])].any (fun p => p.1 = q.1))) :=
  push_failure_requeues
    ⟨⟨[⟨"S", "100", "d1", "present", "t1", "s1"⟩],
      [⟨"S", "T", "N", "", ""⟩],
      [("S", [memberA]), ("S2", [memberB])]⟩, true⟩
    ⟨[⟨"S", "100", "d2", "absent", "t2", "s2"⟩], [], [("S", [memberB])]⟩
    (by decide) (by decide)

/-- The statements `push_pending_to_neon` issues on the remote cursor, in
program order, plus the single final `conn.commit()`. -/
inductive RemoteOp where
  | upsertSheet (t : SheetTuple)
  | deleteTeamMembers (sid : String)
  | insertTeamMember (sid : String) (m : Member)
  | upsertAtt (a : AttendanceRow)
  | commit
deriving DecidableEq, Repr

def RemoteOp.isCommit : RemoteOp → Bool
  | RemoteOp.commit => true
  | _ => false

/-- The cursor statements of one flush with drained batch `p`: all sheet
upserts, then per queued sheet the DELETE plus the member INSERTs, then
all attendance upserts. -/
def flushBody (p : Pending) : List RemoteOp :=
  p.sheets.map RemoteOp.upsertSheet
  ++ p.team_members.flatMap
      (fun q => RemoteOp.deleteTeamMembers q.1
        :: q.2.map (RemoteOp.insertTeamMember q.1))
  ++ p.attendance.map RemoteOp.upsertAtt

/-- The full remote interaction of one flush: nothing at all for an empty
drained batch, otherwise the statements followed by one commit. -/
def flushOps (p : Pending) : List RemoteOp :=
  if p.isEmptyBatch then [] else flushBody p ++ [RemoteOp.commit]

/-- The remote (Postgres) tables touched by the flush.  The conflict
behaviour of the sheet upsert updates only the title (and the
updated_at bookkeeping column, written from the remote clock `now`). -/
structure RemoteSheetRow where
  spreadsheet_id : String
  spreadsheet_title : String
  sheet_name : String
  gdud : String
  pluga : String
  updated_at : String
deriving DecidableEq, Repr

structure RemoteTables where
  sheets : List RemoteSheetRow
  team_members : List TeamMemberRow
  attendance : List AttendanceRow
deriving DecidableEq, Repr

/-- Effect of one cursor statement on the (staged, uncommitted) remote
tables. -/
def applyRemoteOp (now : String) (t : RemoteTables) : RemoteOp → RemoteTables
  | RemoteOp.upsertSheet u =>
      if t.sheets.any (fun r => r.spreadsheet_id = u.spreadsheet_id) then
        { t with sheets := t.sheets.map (fun r =>
            if r.spreadsheet_id = u.spreadsheet_id then
              { r with spreadsheet_title := u.spreadsheet_title,
                       updated_at := now }
            else r) }
      else
        { t with sheets := t.sheets ++ [⟨u.spreadsheet_id,
            u.spreadsheet_title, u.sheet_name, u.gdud, u.pluga, now⟩] }
  | RemoteOp.deleteTeamMembers sid =>
      { t with team_members :=
          t.team_members.filter (fun r => r.spreadsheet_id ≠ sid) }
  | RemoteOp.insertTeamMember sid m =>
      { t with team_members := t.team_members ++ [memberToRow sid m] }
  | RemoteOp.upsertAtt a =>
      { t with attendance := (upsertAttendance t.attendance a.spreadsheet_id a.ma a.date a.status a.updated_at a.updated_by_session) }
  | RemoteOp.commit => t

/-- Transactional execution: statements act on the staged state; `commit`
publishes the staged state as the durable state.  An exception at any
point simply stops the run, so the durable component of a partial run is
what the remote store keeps after the rollback. -/
def runRemoteOps (now : String) :
    RemoteTables → RemoteTables → List RemoteOp → RemoteTables × RemoteTables
  | durable, staged, [] => (durable, staged)
  | durable, staged, op :: rest =>
      if op.isCommit then runRemoteOps now staged staged rest
      else runRemoteOps now durable (applyRemoteOp now staged op) rest

theorem flushBody_no_commit (p : Pending) :
    ∀ op ∈ flushBody p, op.isCommit = false := by
  intro op hop
  unfold flushBody at hop
  rcases List.mem_append.mp hop with h | h
  · rcases List.mem_append.mp h with h1 | h1
    · rcases List.mem_map.mp h1 with ⟨u, _, rfl⟩; rfl
    · rcases List.mem_flatMap.mp h1 with ⟨q, _, hq⟩
      rcases List.mem_cons.mp hq with h2 | h2
      · subst h2; rfl
      · rcases List.mem_map.mp h2 with ⟨m, _, rfl⟩; rfl
  · rcases List.mem_map.mp h with ⟨a, _, rfl⟩; rfl

theorem runRemoteOps_no_commit (now : String) :
    ∀ (l : List RemoteOp) (d s : RemoteTables),
      (∀ op ∈ l, op.isCommit = false) →
      runRemoteOps now d s l = (d, l.foldl (applyRemoteOp now) s) := by
  intro l
  induction l with
  | nil => intro d s _; rfl
  | cons op rest ih =>
    intro d s h
    unfold runRemoteOps
    rw [if_neg (by rw [h op (List.mem_cons_self op rest)]; simp)]
    rw [List.foldl_cons]
    exact ih d _ (fun o ho => h o (List.mem_cons_of_mem op ho))

theorem runRemoteOps_cons (now : String) (d s : RemoteTables)
    (op : RemoteOp) (rest : List RemoteOp) :
    runRemoteOps now d s (op :: rest)
      = if op.isCommit then runRemoteOps now s s rest
        else runRemoteOps now d (applyRemoteOp now s op) rest := rfl

theorem runRemoteOps_append (now : String) (l1 l2 : List RemoteOp) :
    ∀ d s, runRemoteOps now d s (l1 ++ l2)
      = runRemoteOps now (runRemoteOps now d s l1).1
          (runRemoteOps now d s l1).2 l2 := by
  induction l1 with
  | nil => intro d s; rfl
  | cons op rest ih =>
    intro d s
    rw [List.cons_append]
    by_cases hc : op.isCommit = true
    · rw [show runRemoteOps now d s (op :: (rest ++ l2))
          = runRemoteOps now s s (rest ++ l2) from by
        rw [runRemoteOps_cons, if_pos hc]]
      rw [show runRemoteOps now d s (op :: rest)
          = runRemoteOps now s s rest from by
        rw [runRemoteOps_cons, if_pos hc]]
      exact ih s s
    · rw [show runRemoteOps now d s (op :: (rest ++ l2))
          = runRemoteOps now d (applyRemoteOp now s op) (rest ++ l2) from by
        rw [runRemoteOps_cons, if_neg hc]]
      rw [show runRemoteOps now d s (op :: rest)
          = runRemoteOps now d (applyRemoteOp now s op) rest from by
        rw [runRemoteOps_cons, if_neg hc]]
      exact ih d (applyRemoteOp now s op)

/-- C3: a flush with a nonempty drained batch issues, in program order,
the sheet upserts, then per queued sheet the delete-all + member
reinserts, then the attendance upserts, then exactly one commit, last;
stopping anywhere before the end leaves the durable remote state
untouched, while a complete run makes exactly the application of every
drained change durable — one flush cycle is all-or-nothing. -/
theorem flush_order_and_atomicity (p : Pending) (hne : ¬ p.isEmptyBatch)
    (now : String) (R : RemoteTables) :
    flushOps p = p.sheets.map RemoteOp.upsertSheet
        ++ p.team_members.flatMap
            (fun q => RemoteOp.deleteTeamMembers q.1
              :: q.2.map (RemoteOp.insertTeamMember q.1))
        ++ p.attendance.map RemoteOp.upsertAtt
        ++ [RemoteOp.commit]
    ∧ (flushOps p).filter RemoteOp.isCommit = [RemoteOp.commit]
    ∧ (∀ k, k < (flushOps p).length →
        (runRemoteOps now R R ((flushOps p).take k)).1 = R)
    ∧ (runRemoteOps now R R (flushOps p)).1
        = (flushBody p).foldl (applyRemoteOp now) R := by
  have hOps : flushOps p = flushBody p ++ [RemoteOp.commit] := by
    unfold flushOps; rw [if_neg hne]
  refine ⟨?_, ?_, ?_, ?_⟩
  · rw [hOps]; rfl
  · rw [hOps, List.filter_append]
    have h1 : (flushBody p).filter RemoteOp.isCommit = [] := by
      apply List.filter_eq_nil_iff.mpr
      intro op hop
      rw [flushBody_no_commit p op hop]
      simp
    rw [h1, List.nil_append]
    rfl
  · intro k hk
    rw [hOps] at hk ⊢
    rw [List.length_append, List.length_singleton] at hk
    have hk2 : k ≤ (flushBody p).length := Nat.lt_succ_iff.mp hk
    rw [List.take_append_of_le_length hk2]
    rw [runRemoteOps_no_commit now _ R R
      (fun op hop => flushBody_no_commit p op (List.mem_of_mem_take hop))]
  · rw [hOps, runRemoteOps_append,
      runRemoteOps_no_commit now _ R R (flushBody_no_commit p)]
    rfl

/-- The empty remote store used in the flush witness. -/
def remoteEmpty : RemoteTables := ⟨[], [], []⟩

/-- The drained batch used in the flush witness: one attendance tuple,
one sheet tuple, one queued member list. -/
def pFlush : Pending :=
  ⟨[⟨"S", "100", "d1", "present", "t1", "s1"⟩], [⟨"S", "T", "N", "", ""⟩],
   [("S", [memberA])]⟩

/-- C3 witness: the five-statement trace, a failure just before the
commit leaving the durable state empty, and the complete run applying
everything. -/
theorem flush_order_and_atomicity_witness :
    flushOps pFlush = pFlush.sheets.map RemoteOp.upsertSheet
        ++ pFlush.team_members.flatMap
            (fun q => RemoteOp.deleteTeamMembers q.1
              :: q.2.map (RemoteOp.insertTeamMember q.1))
        ++ pFlush.attendance.map RemoteOp.upsertAtt
        ++ [RemoteOp.commit]
    ∧ (runRemoteOps "now" remoteEmpty remoteEmpty
        ((flushOps pFlush).take 4)).1 = remoteEmpty
    ∧ (runRemoteOps "now" remoteEmpty remoteEmpty (flushOps pFlush)).1
        = (flushBody pFlush).foldl (applyRemoteOp "now") remoteEmpty :=
  ⟨(flush_order_and_atomicity pFlush (by decide) "now" remoteEmpty).1,
   (flush_order_and_atomicity pFlush (by decide) "now" remoteEmpty).2.2.1 4
     (by decide),
   (flush_order_and_atomicity pFlush (by decide) "now" remoteEmpty).2.2.2⟩

/-- The process state the request path operates on: the local store and
the pending-sync buffers. -/
structure CacheState where
  store : LocalStore
  pending : Pending
deriving DecidableEq, Repr

/-- `update_attendance`: local upsert, then enqueue the same tuple. -/
def update_attendance_op (c : CacheState) (sid ma date st ts sess : String) :
    CacheState :=
  { store := { c.store with attendance :=
      (upsertAttendance c.store.attendance sid ma date st ts sess) },
    pending := { c.pending with attendance :=
      c.pending.attendance ++ [⟨sid, ma, date, st, ts, sess⟩] } }

/-- `update_attendance_batch`: early return on an empty list, else the
same upsert per item (shared timestamp and session) and enqueue each. -/
def update_attendance_batch_op (c : CacheState) (sid : String)
    (updates : List (String × String × String)) (ts sess : String) :
    CacheState :=
  if updates = [] then c
  else
    let att2 := updates.foldl
      (fun t u => upsertAttendance t sid u.1 u.2.1 u.2.2 ts sess)
      c.store.attendance
    let pend2 := c.pending.attendance
      ++ updates.map (fun u => ⟨sid, u.1, u.2.1, u.2.2, ts, sess⟩)
    { store := { c.store with attendance := att2 },
      pending := { c.pending with attendance := pend2 } }

/-- `save_team_members`: local replacement plus the dict assignment into
the pending buffer. -/
def save_team_members_op (c : CacheState) (sid : String) (ms : List Member) :
    CacheState :=
  { store := { c.store with team_members :=
      (save_team_members c.store.team_members sid ms) },
    pending := { c.pending with team_members :=
      (setPendingTeamMembers c.pending.team_members sid ms) } }

/-- `get_or_create_sheet`: update the title of an existing row (when a
title is given), or insert a fresh row with the schema defaults; always
enqueue the sheet tuple. -/
def get_or_create_sheet_op (c : CacheState)
    (sid sheet_name gdud pluga title nowTs : String) : CacheState :=
  let sheets2 :=
    if c.store.sheets.any (fun r => r.spreadsheet_id = sid) then
      if title ≠ "" then
        c.store.sheets.map (fun r => if r.spreadsheet_id = sid then
          { r with spreadsheet_title := title, updated_at := nowTs } else r)
      else c.store.sheets
    else
      c.store.sheets ++ [⟨sid, title, sheet_name, gdud, pluga,
        "2025-12-21", "2026-02-01", nowTs, nowTs⟩]
  { store := { c.store with sheets := sheets2 },
    pending := { c.pending with sheets :=
      (c.pending.sheets ++ [⟨sid, title, sheet_name, gdud, pluga⟩]) } }

/-- `update_sheet_dates` (local part): set the date range in place. -/
def update_sheet_dates_op (c : CacheState) (sid sd ed nowTs : String) :
    CacheState :=
  { c with store := { c.store with sheets := c.store.sheets.map (fun r =>
      if r.spreadsheet_id = sid then
        { r with start_date := sd, end_date := ed, updated_at := nowTs }
      else r) } }

/-- `delete_sheet` (local part): delete the sheet's rows from all four
tables. -/
def delete_sheet_op (c : CacheState) (sid : String) : CacheState :=
  { c with store := { c.store with
      attendance := c.store.attendance.filter (fun r => r.spreadsheet_id ≠ sid),
      team_members := c.store.team_members.filter (fun r => r.spreadsheet_id ≠ sid),
      active_users := c.store.active_users.filter (fun r => r.spreadsheet_id ≠ sid),
      sheets := c.store.sheets.filter (fun r => r.spreadsheet_id ≠ sid) } }

/-- C7: the version of a freshly initialized store is 1;
`increment_data_version` adds exactly 1 and returns the new value, which
a subsequent `get_data_version` reads back; and no other core operation
(attendance writes, team-member saves, sheet create/update/delete,
heartbeat with its presence upkeep) ever changes — in particular never
decreases — the stored version. -/
theorem data_version_invariant :
    get_data_version init_local_cache = 1
    ∧ (∀ s : LocalStore, (increment_data_version s).2 = get_data_version s + 1
        ∧ get_data_version (increment_data_version s).1
            = (increment_data_version s).2)
    ∧ (∀ c sid ma date st ts sess,
        get_data_version (update_attendance_op c sid ma date st ts sess).store
          = get_data_version c.store)
    ∧ (∀ c sid updates ts sess,
        get_data_version (update_attendance_batch_op c sid updates ts sess).store
          = get_data_version c.store)
    ∧ (∀ c sid ms, get_data_version (save_team_members_op c sid ms).store
        = get_data_version c.store)
    ∧ (∀ c sid n g pl t ts,
        get_data_version (get_or_create_sheet_op c sid n g pl t ts).store
          = get_data_version c.store)
    ∧ (∀ c sid sd ed ts,
        get_data_version (update_sheet_dates_op c sid sd ed ts).store
          = get_data_version c.store)
    ∧ (∀ c sid, get_data_version (delete_sheet_op c sid).store
        = get_data_version c.store)
    ∧ (∀ s sid req now ts, get_data_version (heartbeat s sid req now ts).1
        = get_data_version s) := by
  refine ⟨rfl, fun s => ⟨rfl, rfl⟩, fun c sid ma date st ts sess => rfl,
    ?_, fun c sid ms => rfl, fun c sid n g pl t ts => rfl,
    fun c sid sd ed ts => rfl, fun c sid => rfl, ?_⟩
  · intro c sid updates ts sess
    unfold update_attendance_batch_op
    split
    · rfl
    · rfl
  · intro s sid req now ts
    have hst : (heartbeat s sid req now ts).1 = (heartbeatPresence s sid req now).1 := by
      unfold heartbeat
      dsimp only
      repeat' split
      all_goals rfl
    rw [hst]
    rfl
